import Mathlib

/-!
# Verification of the Metaobject-Paginator server against its specification

Shallow embedding of the core components of the repository:

* the app-proxy signature verifier `verifyAppProxy` (src/server.js, lines 319-360;
  the identical draft lives in src/unnamed/part_000, lines 117-151);
* the paginated metaobject fetcher `fetchAllCOAs` (src/server.js, lines 39-116);
* the retrying single-page fetcher of the draft src/unnamed/part_001, lines 66-142;
* the credential store accessor `getTokenForShop` and the OAuth callback handler
  (src/server.js, lines 156-162 and 374-412).

Network and JSON plumbing is modelled by explicit data; exceptions thrown by the
JavaScript code are modelled with `Except`/`Option`; the HMAC-SHA256 primitive of the
Node `crypto` library is an external collaborator and is passed in as an explicit
function argument, so every theorem quantifies over it.
-/

namespace MetaobjectPaginator

/-! ## Query values and the app-proxy verifier (src/server.js, lines 319-360)

An express query object maps each parameter name to a string, or to an array of
strings when the parameter is repeated.  The `signature` parameter is carried
separately from the other parameters: the code copies the query and deletes the
`signature` key before canonicalising, so the remaining parameters and the received
signature are independent pieces of the request.  Every claim concerns requests
whose `signature` parameter is a single (string-valued) query parameter. -/

/-- A query-parameter value: a plain string, or an array for a repeated parameter. -/
inductive QVal where
  | str : String → QVal
  | arr : List String → QVal
deriving DecidableEq, Repr

/-- `Array.isArray(query[key]) ? query[key].join(',') : query[key]` —
the rendering of one parameter value inside the template literal. -/
def renderQVal : QVal → String
  | .str s => s
  | .arr l => String.intercalate "," l

/-- An inbound request on the signed proxy path: the query parameters other than
`signature`, and the `signature` query parameter itself when present. -/
structure ProxyReq where
  params : List (String × QVal)
  signature : Option String
deriving DecidableEq, Repr

/-- `query[key]`: first binding of `key` in the (deleted-`signature`) query object. -/
def qget (params : List (String × QVal)) (k : String) : Option QVal :=
  (params.find? (fun kv => kv.fst == k)).map Prod.snd

/-- Lexicographic comparison of character lists, as JavaScript `<` compares the
code units of two strings (identical to code-point order on the basic plane, which
covers every parameter name occurring on the proxy path). -/
def charListLe : List Char → List Char → Bool
  | [], _ => true
  | _ :: _, [] => false
  | a :: as, b :: bs =>
    if a.toNat < b.toNat then true
    else if b.toNat < a.toNat then false
    else charListLe as bs

/-- The string order used by `Array.prototype.sort` without a comparator. -/
def jsStrLe (a b : String) : Prop := charListLe a.data b.data = true

instance : DecidableRel jsStrLe := fun a b =>
  inferInstanceAs (Decidable (charListLe a.data b.data = true))

/-- `Object.keys(query).sort().map(key => `key=value`).join('')` — the canonical
string the verifier hashes: parameter names sorted lexicographically, each rendered
as `key=value` (arrays comma-joined), concatenated with no separator.
`Array.prototype.sort` without a comparator sorts strings by code units and is
stable; on the distinct keys of a query object any stable sorted order is unique,
so it is modelled with insertion sort over the string order. -/
def sortedParamString (params : List (String × QVal)) : String :=
  let keys := (params.map Prod.fst).insertionSort jsStrLe
  String.join (keys.map (fun k =>
    k ++ "=" ++ (match qget params k with
      | some v => renderQVal v
      | none => "undefined")))

/-- Outcome of the verifier middleware. -/
inductive VerifyOutcome where
  | unauthorizedMissing   -- 401 `Missing signature`
  | unauthorizedInvalid   -- 401 `Invalid signature`
  | accepted              -- `next()` is called
  | crashed               -- an exception escapes the middleware (no try/catch)
deriving DecidableEq, Repr

/-- `crypto.timingSafeEqual(Buffer.from(a), Buffer.from(b))`: throws a `RangeError`
when the two buffers differ in byte length, otherwise compares them in constant
time.  `Buffer.from` on a string yields its UTF-8 bytes, and two strings have equal
UTF-8 byte sequences exactly when they are equal. -/
def timingSafeEqual (a b : String) : Except Unit Bool :=
  if a.utf8ByteSize ≠ b.utf8ByteSize then .error () else .ok (a == b)

/-- `verifyAppProxy` (src/server.js, lines 319-360): reject with 401 when the
`signature` parameter is missing or empty (falsy), otherwise HMAC the canonical
parameter string with the shared secret (hex digest, supplied as `hmacHex`) and
compare with `crypto.timingSafeEqual`, which throws — uncaught — on buffers of
different length. -/
def verifyAppProxy (hmacHex : String → String) (r : ProxyReq) : VerifyOutcome :=
  match r.signature with
  | none => .unauthorizedMissing
  | some sig =>
    if sig = "" then .unauthorizedMissing
    else
      let calculatedSignature := hmacHex (sortedParamString r.params)
      match timingSafeEqual calculatedSignature sig with
      | .error _ => .crashed
      | .ok true => .accepted
      | .ok false => .unauthorizedInvalid

/-! ## Remote data shapes and the record normalizer (src/server.js, lines 39-116)

A GraphQL response page for the `metaobjects` query.  `field(key: "...") { value }`
yields `{value}` or `null`, and `value` itself may be `null`; the code reads it with
`edge.node.date?.value`, collapsing both nulls to `undefined`, so each field is
modelled as one `Option String`. -/

/-- One raw remote node, after the `?.value` projections of the source. -/
structure RawNode where
  id : String
  date : Option String
  product_name : Option String
  batch_number : Option String
  pdf_link : Option String
  best_by_date : Option String
deriving DecidableEq, Repr

/-- One entry of `data.metaobjects.edges`. -/
structure Edge where
  node : RawNode
  cursor : String
deriving DecidableEq, Repr

/-- `pageInfo { hasNextPage endCursor }`. -/
structure PageInfo where
  hasNextPage : Bool
  endCursor : Option String
deriving DecidableEq, Repr

/-- `data.metaobjects`. -/
structure Metaobjects where
  edges : List Edge
  pageInfo : PageInfo
deriving DecidableEq, Repr

/-- The `data` object of an error-free GraphQL response; `metaobjects` may be null. -/
structure GraphQLData where
  metaobjects : Option Metaobjects
deriving DecidableEq, Repr

/-- The normalized record built from one raw node (src/server.js, lines 94-101). -/
structure COA where
  id : String
  date : Option String
  product : Option String
  batch_number : Option String
  pdf_link : Option String
  best_by_date : Option String
deriving DecidableEq, Repr

/-- JavaScript truthiness of a possibly-absent string: `undefined`, `null` and the
empty string are falsy. -/
def truthy : Option String → Bool
  | none => false
  | some s => !s.isEmpty

/-- The field mapping of the normalizer (src/server.js, lines 94-101). -/
def toCOA (n : RawNode) : COA :=
  { id := n.id
    date := n.date
    product := n.product_name
    batch_number := n.batch_number
    pdf_link := n.pdf_link
    best_by_date := n.best_by_date }

/-- `if (coa.date && coa.product)` — the required-field check (src/server.js, line 103). -/
def hasRequired (c : COA) : Bool :=
  truthy c.date && truthy c.product

/-- The per-page normalization pass (src/server.js, lines 93-106): map every edge
through the field mapping and keep exactly the records passing the required-field
check, in edge order. -/
def keptCOAs (edges : List Edge) : List COA :=
  (edges.map (fun e => toCOA e.node)).filter hasRequired

/-- `data.metaobjects?.edges || []` (src/server.js, line 92). -/
def edgesOf (d : GraphQLData) : List Edge :=
  match d.metaobjects with
  | some m => m.edges
  | none => []

/-- `data.metaobjects?.pageInfo?.hasNextPage ? data.metaobjects.pageInfo.endCursor : null`
(src/server.js, lines 108-110). -/
def nextAfter (d : GraphQLData) : Option String :=
  match d.metaobjects with
  | some m => if m.pageInfo.hasNextPage then m.pageInfo.endCursor else none
  | none => none

/-- The loop continues `while (after)`: the assigned cursor must also be truthy, so
a null or empty `endCursor` ends the walk even when `hasNextPage` is set. -/
def contAfter (d : GraphQLData) : Option String :=
  match nextAfter d with
  | some c => if c.isEmpty then none else some c
  | none => none

/-! ## The date re-sort (src/server.js, line 114)

`allCOAs.sort((a, b) => new Date(b.date) - new Date(a.date))`.  `new Date(s)` on an
unparsable string (or on `undefined`) is an invalid date whose time value is NaN,
the subtraction is then NaN, and `SortCompare` of the ECMAScript standard coerces a
NaN comparator result to `+0`.  The date parser is modelled for the date-only
interchange form `YYYY-MM-DD` (the only portable format, and the format of the
stored metaobject dates); every other string is treated as an invalid date. -/

/-- Decimal digit value of a character, if it is a digit. -/
def digitVal (c : Char) : Option Nat :=
  if c.isDigit then some (c.toNat - 48) else none

/-- Leap-year rule of the proleptic Gregorian calendar used by ECMAScript dates. -/
def isLeapYear (y : Nat) : Bool :=
  (y % 4 == 0 && y % 100 != 0) || y % 400 == 0

/-- Number of days in a month (1-12) of a year. -/
def daysInMonth (y m : Nat) : Nat :=
  if m = 2 then (if isLeapYear y then 29 else 28)
  else if m = 4 ∨ m = 6 ∨ m = 9 ∨ m = 11 then 30
  else 31

/-- Days from the Unix epoch to the civil date `y-m-d` (standard civil-from-days
inverse, valid for the year range 0-9999 of the interchange format). -/
def daysFromCivil (y m d : Nat) : Int :=
  let y' : Int := if m ≤ 2 then (y : Int) - 1 else (y : Int)
  let era : Int := (if 0 ≤ y' then y' else y' - 399) / 400
  let yoe : Int := y' - era * 400
  let mp : Nat := (m + 9) % 12
  let doy : Int := ((153 * mp + 2) / 5 + d - 1 : Nat)
  let doe : Int := yoe * 365 + yoe / 4 - yoe / 100 + doy
  era * 146097 + doe - 719468

/-- `new Date(s).getTime()` restricted to the date-only form `YYYY-MM-DD`
(interpreted as UTC, in milliseconds); `none` models an invalid date (NaN). -/
def parseDateISO (s : String) : Option Int :=
  match s.data with
  | [y1, y2, y3, y4, h1, m1, m2, h2, d1, d2] =>
    if h1 = '-' ∧ h2 = '-' then do
      let a ← digitVal y1
      let b ← digitVal y2
      let c ← digitVal y3
      let e ← digitVal y4
      let f ← digitVal m1
      let g ← digitVal m2
      let p ← digitVal d1
      let q ← digitVal d2
      let y := a * 1000 + b * 100 + c * 10 + e
      let mo := f * 10 + g
      let da := p * 10 + q
      if 1 ≤ mo ∧ mo ≤ 12 ∧ 1 ≤ da ∧ da ≤ daysInMonth y mo then
        some (86400000 * daysFromCivil y mo da)
      else none
    else none
  | _ => none

/-- Time value of `new Date(c.date)` for a record: `none` is NaN. -/
def dateVal (c : COA) : Option Int :=
  match c.date with
  | none => none
  | some s => parseDateISO s

/-- The comparator `(a, b) => new Date(b.date) - new Date(a.date)`, after the
NaN-to-`+0` coercion of ECMAScript `SortCompare`. -/
def sortCompare (a b : COA) : Int :=
  match dateVal b, dateVal a with
  | some tb, some ta => tb - ta
  | _, _ => 0

/-- The keep-`a`-first relation of the comparator: `Array.prototype.sort` keeps `a`
before `b` when the comparator result is non-positive. -/
def coaLe (a b : COA) : Prop := sortCompare a b ≤ 0

instance : DecidableRel coaLe := fun a b => inferInstanceAs (Decidable (sortCompare a b ≤ 0))

/-- `allCOAs.sort(comparator)` (src/server.js, line 114).  ECMAScript requires the
sort to be stable and, whenever the comparator is consistent, to produce the unique
stable sorted order, so any stable sorting algorithm is a faithful model on the
consistent-comparator inputs all theorems below quantify over; a stable insertion
sort is used. -/
def sortCOAs (l : List COA) : List COA :=
  l.insertionSort coaLe

/-- Modelled from the spec: the order on date keys used by the specification's
description of the final sort — dates are "parsed as calendar dates for
comparison, treating unparsable dates as the lowest sort key", so `none` (an
unparsable date) lies below every parsed date. -/
def specDateKeyLe (x y : Option Int) : Prop :=
  match x, y with
  | none, _ => True
  | some _, none => False
  | some a, some b => a ≤ b

instance (x y : Option Int) : Decidable (specDateKeyLe x y) :=
  match x, y with
  | none, _ => isTrue trivial
  | some _, none => isFalse (fun h => h)
  | some a, some b => inferInstanceAs (Decidable (a ≤ b))

/-- Record `a` may precede record `b` in a date-descending sequence: `b`'s date
key is at most `a`'s. -/
def dateGe (a b : COA) : Prop := specDateKeyLe (dateVal b) (dateVal a)

instance (a b : COA) : Decidable (dateGe a b) :=
  inferInstanceAs (Decidable (specDateKeyLe (dateVal b) (dateVal a)))

/-- Modelled from the spec: "sorted by `date` descending", with unparsable dates
as the lowest key — the sequence is pairwise ordered by `dateGe`. -/
def specSortedDateDesc (l : List COA) : Prop := l.Pairwise dateGe

instance (l : List COA) : Decidable (specSortedDateDesc l) :=
  inferInstanceAs (Decidable (l.Pairwise dateGe))

/-! ## The pagination walk `fetchAllCOAs` (src/server.js, lines 39-116)

The remote endpoint is an external collaborator: it is passed in as a function from
the requested cursor to an outcome.  Exceptions thrown in the loop body abort the
walk and are modelled with `Except`; the `do … while (after)` loop is modelled with
explicit fuel, `none` standing for a walk that does not finish within the fuel. -/

/-- One page request: the query asks for `first: 50` items (hard-coded in the query
template) after the given cursor (the `after` clause is omitted on the first page). -/
structure PageRequest where
  first : Nat
  after : Option String
deriving DecidableEq, Repr

/-- The request built by the query template for the current cursor. -/
def mkRequest (after : Option String) : PageRequest := ⟨50, after⟩

/-- Outcome of one remote page call. -/
inductive RemoteOutcome where
  | ok (data : GraphQLData)   -- 2xx response, no `errors` field
  | httpError (status : Nat)  -- `!response.ok`: the code throws
  | gqlErrors                 -- structured `errors` payload: the code throws
  | transport                 -- `fetch` itself rejected
deriving Repr

/-- The error surfaced by an aborted walk (the thrown `Error`). -/
inductive FetchErr where
  | httpFailed (status : Nat)  -- `GraphQL request failed: ${status}`
  | gqlFailed                  -- `GraphQL errors: …`
  | transportFailed            -- the transport exception itself
deriving DecidableEq, Repr

instance {ε α : Type} [DecidableEq ε] [DecidableEq α] : DecidableEq (Except ε α) := fun a b =>
  match a, b with
  | .ok x, .ok y =>
    if h : x = y then isTrue (by rw [h]) else isFalse (by intro hc; cases hc; exact h rfl)
  | .error x, .error y =>
    if h : x = y then isTrue (by rw [h]) else isFalse (by intro hc; cases hc; exact h rfl)
  | .ok _, .error _ => isFalse (by intro hc; cases hc)
  | .error _, .ok _ => isFalse (by intro hc; cases hc)

/-- The try-block of one remote call, as an `Except`: a throw is an error. -/
def attemptExcept : RemoteOutcome → Except FetchErr GraphQLData
  | .ok d => .ok d
  | .httpError s => .error (.httpFailed s)
  | .gqlErrors => .error .gqlFailed
  | .transport => .error .transportFailed

/-- The `do … while (after)` loop of `fetchAllCOAs` (src/server.js, lines 47-111):
issue the page request for the current cursor, throw on HTTP or GraphQL failure
(aborting the walk with no partial result), append the kept records otherwise, and
continue while the returned continuation cursor is truthy.  Returns the issued
requests together with the walk result; `none` means the fuel ran out. -/
def fetchLoop (api : Option String → RemoteOutcome) :
    Nat → Option String → Option (List PageRequest × Except FetchErr (List COA))
  | 0, _ => none
  | fuel + 1, after =>
    match attemptExcept (api after) with
    | .error e => some ([mkRequest after], .error e)
    | .ok d =>
      let kept := keptCOAs (edgesOf d)
      match contAfter d with
      | none => some ([mkRequest after], .ok kept)
      | some c =>
        match fetchLoop api fuel (some c) with
        | none => none
        | some (reqs, res) =>
          some (mkRequest after :: reqs, res.map (fun l => kept ++ l))

/-- `fetchAllCOAs` (src/server.js, lines 39-116): run the walk from the start and
sort the accumulated records by date descending before returning them. -/
def fetchAllCOAs (api : Option String → RemoteOutcome) (fuel : Nat) :
    Option (List PageRequest × Except FetchErr (List COA)) :=
  (fetchLoop api fuel none).map (fun p => (p.1, p.2.map sortCOAs))

/-- An N-page remote catalog, as seen from a starting cursor: the remote answers
the request at `after` with the first listed page, every page but the last carries
`hasNextPage` and a truthy continuation cursor, and the last page reports no next
page.  This is the shape of the simulated N-page remote of the specification. -/
inductive Walk (api : Option String → RemoteOutcome) :
    Option String → List Metaobjects → Prop
  | last {after : Option String} {m : Metaobjects} :
      api after = .ok ⟨some m⟩ →
      m.pageInfo.hasNextPage = false →
      Walk api after [m]
  | step {after : Option String} {m : Metaobjects} {c : String}
      {ms : List Metaobjects} :
      api after = .ok ⟨some m⟩ →
      m.pageInfo.hasNextPage = true →
      m.pageInfo.endCursor = some c →
      c ≠ "" →
      Walk api (some c) ms →
      Walk api after (m :: ms)

/-- The requests the loop issues while walking the listed pages from a cursor. -/
def walkRequests : Option String → List Metaobjects → List PageRequest
  | _, [] => []
  | after, m :: ms => mkRequest after :: walkRequests m.pageInfo.endCursor ms

/-! ## The retrying single-page fetcher of the draft src/unnamed/part_001 (lines 66-142)

This draft's `fetchAllCOAs(first, after)` fetches one page and wraps the whole
remote call — including the structured-GraphQL-error check — in a
`try { … } catch` retry loop with `maxAttempts = 3` and a
`setTimeout(1000 * attempt)` sleep between attempts.  The remote is modelled as a
function from the attempt index to that attempt's outcome; the trace records every
issued request and every sleep. -/

namespace Draft1

open MetaobjectPaginator

/-- The value returned on success: the kept records of the page and
`data.metaobjects?.pageInfo || { hasNextPage: false, endCursor: null }`. -/
structure PageResult where
  coas : List COA
  pageInfo : PageInfo
deriving DecidableEq, Repr

/-- Normalization of one successful response (src/unnamed/part_001, lines 119-131);
the map-then-filter pass is the same normalizer as the walking fetcher. -/
def pageResult (d : GraphQLData) : PageResult :=
  { coas := keptCOAs (edgesOf d)
    pageInfo :=
      match d.metaobjects with
      | some m => m.pageInfo
      | none => ⟨false, none⟩ }

/-- The `while (attempt < maxAttempts)` retry loop (src/unnamed/part_001, lines
89-141).  Arguments: the per-attempt remote outcome, the (constant) page request,
`maxAttempts`, the current `attempt` counter, and fuel equal to the remaining loop
iterations.  Returns the issued requests, the performed sleeps (ms), and the
result — `none` models the `undefined` return of a loop that exits its guard. -/
def retryLoop (oracle : Nat → RemoteOutcome) (req : PageRequest) (maxAttempts : Nat) :
    Nat → Nat → List PageRequest × List Nat × Option (Except FetchErr PageResult)
  | _, 0 => ([], [], none)
  | attempt, fuel + 1 =>
    match attemptExcept (oracle attempt) with
    | .ok d => ([req], [], some (.ok (pageResult d)))
    | .error e =>
      if maxAttempts ≤ attempt + 1 then ([req], [], some (.error e))
      else
        let t := retryLoop oracle req maxAttempts (attempt + 1) fuel
        (req :: t.1, 1000 * (attempt + 1) :: t.2.1, t.2.2)

/-- `fetchAllCOAs(first = 50, after = null)` of src/unnamed/part_001: the retry
loop started at `attempt = 0` with `maxAttempts = 3`, issuing the same page request
on every attempt. -/
def fetchAllCOAs (oracle : Nat → RemoteOutcome) (first : Nat) (after : Option String) :
    List PageRequest × List Nat × Option (Except FetchErr PageResult) :=
  retryLoop oracle ⟨first, after⟩ 3 0 3

/-- A transient failure in the sense of the specification: a non-2xx HTTP status or
a transport-level exception — not a structured GraphQL error payload. -/
def isTransient : RemoteOutcome → Bool
  | .httpError _ => true
  | .transport => true
  | _ => false

end Draft1

/-! ## Credential store, `getTokenForShop` and the OAuth callback
(src/server.js, lines 156-162 and 374-412)

The Upstash key-value store holds one credential per shop domain; it is modelled as
an association list with `kv.set` prepending (overwriting on read) and `kv.get`
returning the stored value or null. -/

/-- The key-value credential store. -/
abbrev Store := List (String × String)

/-- `kv.set(shop, token)`. -/
def kvSet (st : Store) (k v : String) : Store := (k, v) :: st

/-- `kv.get(shop)`: the stored value, or null when the key is absent. -/
def kvGet (st : Store) (k : String) : Option String :=
  (st.find? (fun kv => kv.fst == k)).map Prod.snd

/-- `getTokenForShop` (src/server.js, lines 157-162): throw on a falsy shop, throw
when no (truthy) token is stored, return the token otherwise. -/
def getTokenForShop (st : Store) (shop : String) : Except String String :=
  if shop = "" then .error "No shop provided"
  else
    match kvGet st shop with
    | none => .error ("No token for " ++ shop ++ "; run OAuth first")
    | some t =>
      if t = "" then .error ("No token for " ++ shop ++ "; run OAuth first")
      else .ok t

/-- The remote token endpoint's answer to the code-exchange POST. -/
inductive TokenResponse where
  | httpError (status : Nat) (body : String)       -- `!tokenResponse.ok`
  | okJson (access_token : Option String)          -- 2xx, parsed JSON body
deriving DecidableEq, Repr

/-- What the callback hands back over HTTP. -/
inductive CallbackOut where
  | badRequest                  -- 400 `Missing shop or code`
  | successPage (shop : String) -- 200 success page, token stored
  | oauthFailed                 -- 500 (non-2xx exchange, caught and reported)
  | noTokenField                -- 500 `Failed to get token: …`
deriving DecidableEq, Repr

/-- The `/auth/callback` handler (src/server.js, lines 374-412): reject when `shop`
or `code` is falsy; otherwise exchange the code, and on an HTTP-success response
carrying a truthy `access_token` store it in the credential store under the shop
domain and render the success page.  Returns the updated store with the response. -/
def authCallback (st : Store) (shop code : Option String)
    (resp : TokenResponse) : Store × CallbackOut :=
  match shop, code with
  | some s, some c =>
    if s = "" ∨ c = "" then (st, .badRequest)
    else
      match resp with
      | .httpError _ _ => (st, .oauthFailed)
      | .okJson tok =>
        match tok with
        | some t =>
          if t = "" then (st, .noTokenField)
          else (kvSet st s t, .successPage s)
        | none => (st, .noTokenField)
  | _, _ => (st, .badRequest)

/-! ## The signed data route `/coas` (src/server.js, lines 429-449)

The route runs the signature verifier and, when it accepts, the pagination walk;
the credential store is threaded through to state what the route does to it. -/

/-- Outcome of one inbound `/coas` request. -/
inductive CoasOut where
  | unauthorized               -- 401 from the verifier
  | crashed                    -- uncaught verifier exception
  | coas (records : List COA)  -- 200 JSON array
  | fetchFailed                -- 500 `Failed to fetch COAs: …`
  | hung                       -- walk did not finish within the fuel
deriving Repr

/-- The `/coas` handler: `verifyAppProxy` then `fetchAllCOAs`.  The handler takes
and returns the credential store; neither the verifier nor the fetcher touches it
(the route reads its token from configuration), so the store passes through. -/
def handleCoas (hmacHex : String → String) (api : Option String → RemoteOutcome)
    (fuel : Nat) (st : Store) (r : ProxyReq) : Store × CoasOut :=
  match verifyAppProxy hmacHex r with
  | .unauthorizedMissing => (st, .unauthorized)
  | .unauthorizedInvalid => (st, .unauthorized)
  | .crashed => (st, .crashed)
  | .accepted =>
    match fetchAllCOAs api fuel with
    | none => (st, .hung)
    | some (_, .error _) => (st, .fetchFailed)
    | some (_, .ok l) => (st, .coas l)

/-! ## Concrete instances used by witnesses and counterexamples

`hexStub` is a stand-in for the external HMAC-SHA256 hex primitive in closed
statements: deterministic, fixed output width, and sensitive to every character of
the message. -/

/-- A fixed-width stand-in digest: one decimal character derived from the sum of
the message's code points.  (Every theorem quantifying over the HMAC function can
be instantiated with it.) -/
def hexStub (s : String) : String :=
  String.singleton (Char.ofNat (48 + (s.data.foldl (fun a c => a + c.toNat) 0) % 10))

/-- The proxy query of the sample signed request. -/
def paramsC1 : List (String × QVal) :=
  [("path_prefix", .str "/apps/coas"), ("shop", .str "x.myshopify.com"),
   ("timestamp", .str "1700000000")]

/-- The same query with a single character of the `shop` value mutated. -/
def paramsC1m : List (String × QVal) :=
  [("path_prefix", .str "/apps/coas"), ("shop", .str "y.myshopify.com"),
   ("timestamp", .str "1700000000")]

/-- The correctly signed sample request. -/
def sigC1 : String := hexStub (sortedParamString paramsC1)

/-- Sample request carrying a valid signature. -/
def reqC1 : ProxyReq := ⟨paramsC1, some sigC1⟩

/-- The sample request after mutating one character of the `shop` value, with the
original signature. -/
def reqC1m : ProxyReq := ⟨paramsC1m, some sigC1⟩

/-- A record whose date string no date parser accepts. -/
def coaUnparsable : COA := ⟨"b1", some "not-a-date", some "Balm", none, none, none⟩

/-- A record with a parsable date. -/
def coa2020 : COA := ⟨"b2", some "2020-01-01", some "Cream", none, none, none⟩

/-- The single page of the C7 counterexample catalog: the unparsable-date record
first, the dated record second. -/
def pageC7 : Metaobjects :=
  ⟨[⟨⟨"b1", some "not-a-date", some "Balm", none, none, none⟩, "c1"⟩,
    ⟨⟨"b2", some "2020-01-01", some "Cream", none, none, none⟩, "c2"⟩],
   ⟨false, none⟩⟩

/-- The one-page remote of the C7 counterexample. -/
def apiC7 : Option String → RemoteOutcome := fun _ => .ok ⟨some pageC7⟩

/-! ## Helper lemmas -/

/-- The stub digest always has one single-byte character. -/
theorem hexStub_utf8ByteSize (s : String) : (hexStub s).utf8ByteSize = 1 := by
  have hlt : (s.data.foldl (fun a c => a + c.toNat) 0) % 10 < 10 :=
    Nat.mod_lt _ (by norm_num)
  unfold hexStub
  revert hlt
  generalize (s.data.foldl (fun a c => a + c.toNat) 0) % 10 = v
  intro hlt
  interval_cases v <;> decide

theorem truthy_iff (o : Option String) : truthy o = true ↔ ∃ s, o = some s ∧ s ≠ "" := by
  cases o with
  | none => simp [truthy]
  | some s =>
    constructor
    · intro h
      refine ⟨s, rfl, fun hc => ?_⟩
      subst hc
      exact absurd h (by decide)
    · rintro ⟨t, ht, hne⟩
      have hst : s = t := by injection ht
      subst hst
      simp only [truthy, Bool.not_eq_true']
      cases he : s.isEmpty
      · rfl
      · exact absurd (String.isEmpty_iff s |>.mp he) hne

theorem mem_keptCOAs (edges : List Edge) (c : COA) :
    c ∈ keptCOAs edges ↔ c ∈ edges.map (fun e => toCOA e.node) ∧ hasRequired c = true := by
  simp [keptCOAs, List.mem_filter]

/-- The verifier on a request carrying a non-empty signature: crash when the byte
lengths differ, otherwise accept exactly on equality. -/
theorem verify_some (hmacHex : String → String) (r : ProxyReq) (sig : String)
    (hsig : r.signature = some sig) (hne : sig ≠ "") :
    verifyAppProxy hmacHex r =
      (if (hmacHex (sortedParamString r.params)).utf8ByteSize ≠ sig.utf8ByteSize then
        .crashed
      else if hmacHex (sortedParamString r.params) = sig then .accepted
      else .unauthorizedInvalid) := by
  simp only [verifyAppProxy, hsig, if_neg hne, timingSafeEqual]
  by_cases hsz : (hmacHex (sortedParamString r.params)).utf8ByteSize ≠ sig.utf8ByteSize
  · rw [if_pos hsz, if_pos hsz]
  · rw [if_neg hsz, if_neg hsz]
    by_cases heq : hmacHex (sortedParamString r.params) = sig
    · rw [if_pos heq]
      have hb : (hmacHex (sortedParamString r.params) == sig) = true := by
        exact beq_iff_eq.mpr heq
      rw [hb]
    · rw [if_neg heq]
      have hb : (hmacHex (sortedParamString r.params) == sig) = false := by
        exact beq_eq_false_iff_ne.mpr heq
      rw [hb]

/-! ## Claim theorems -/

/-- C5: the record normalizer materializes a raw node into the result set exactly
when both its `date` and `product` fields are present and non-empty; a node with
non-empty `date` and `product_name` but missing `batch_number`, `pdf_link` and
`best_by_date` is kept with those fields empty; and a node failing the
required-field check is dropped from the output (the pass is a total function on
every edge list, so nothing is raised). -/
theorem c5_normalizer_required_fields
    (edges : List Edge) (c : COA) (i d p cur : String) (e : Edge)
    (hd : d ≠ "") (hp : p ≠ "")
    (hfail : hasRequired (toCOA e.node) = false) :
    (c ∈ keptCOAs edges ↔
      c ∈ edges.map (fun e => toCOA e.node) ∧
        (∃ ds, c.date = some ds ∧ ds ≠ "") ∧ (∃ ps, c.product = some ps ∧ ps ≠ "")) ∧
    keptCOAs [⟨⟨i, some d, some p, none, none, none⟩, cur⟩] =
      [⟨i, some d, some p, none, none, none⟩] ∧
    toCOA e.node ∉ keptCOAs edges := by
  refine ⟨?_, ?_, ?_⟩
  · rw [mem_keptCOAs]
    constructor
    · rintro ⟨hm, hr⟩
      rw [hasRequired, Bool.and_eq_true, truthy_iff, truthy_iff] at hr
      exact ⟨hm, hr.1, hr.2⟩
    · rintro ⟨hm, h1, h2⟩
      refine ⟨hm, ?_⟩
      rw [hasRequired, Bool.and_eq_true, truthy_iff, truthy_iff]
      exact ⟨h1, h2⟩
  · have hdt : (some d).isSome = true := rfl
    simp only [keptCOAs, List.map_cons, List.map_nil, toCOA, List.filter,
      hasRequired, truthy]
    have h1 : d.isEmpty = false := by
      cases hde : d.isEmpty
      · rfl
      · exact absurd (String.isEmpty_iff d |>.mp hde) hd
    have h2 : p.isEmpty = false := by
      cases hpe : p.isEmpty
      · rfl
      · exact absurd (String.isEmpty_iff p |>.mp hpe) hp
    simp [h1, h2]
  · intro hc
    rw [mem_keptCOAs] at hc
    rw [hc.2] at hfail
    exact Bool.true_eq_false ▸ hfail

/-- Witness for C5 at a concrete edge list: a node with `date` and `product_name`
set and the optional fields absent is kept verbatim. -/
theorem c5_normalizer_required_fields_witness :
    keptCOAs [⟨⟨"gid1", some "2024-05-01", some "Gummies", none, none, none⟩, "cur1"⟩] =
      [⟨"gid1", some "2024-05-01", some "Gummies", none, none, none⟩] :=
  (c5_normalizer_required_fields
    [⟨⟨"gid1", some "2024-05-01", some "Gummies", none, none, none⟩, "cur1"⟩]
    ⟨"gid1", some "2024-05-01", some "Gummies", none, none, none⟩
    "gid1" "2024-05-01" "Gummies" "cur1"
    ⟨⟨"gid2", none, some "Tincture", none, none, none⟩, "cur2"⟩
    (by decide) (by decide) (by decide)).2.1

/-- C1: on the signed proxy path, the verifier accepts exactly when the hex HMAC of
the sorted, separator-free `key=value` concatenation (multi-valued parameters
comma-joined) equals the received `signature` byte-for-byte; and a request whose
parameters hash differently (in particular one with a single mutated character in a
parameter value, under the standard collision-freedom assumption on HMAC-SHA256,
stated here as the hypothesis that the two digests differ) is rejected with 401
Unauthorized.  The digest function is the external `crypto` primitive, quantified
over, with fixed digest width. -/
theorem c1_verify_accepts_iff_hmac_matches
    (hmacHex : String → String) (r : ProxyReq) (sig : String)
    (hsig : r.signature = some sig) (hne : sig ≠ "") :
    (verifyAppProxy hmacHex r = .accepted ↔
      hmacHex (sortedParamString r.params) = sig) ∧
    (∀ r' : ProxyReq, r'.signature = some sig →
      (∀ s t : String, (hmacHex s).utf8ByteSize = (hmacHex t).utf8ByteSize) →
      hmacHex (sortedParamString r'.params) ≠ hmacHex (sortedParamString r.params) →
      verifyAppProxy hmacHex r = .accepted →
      verifyAppProxy hmacHex r' = .unauthorizedInvalid) := by
  have hiff : verifyAppProxy hmacHex r = .accepted ↔
      hmacHex (sortedParamString r.params) = sig := by
    rw [verify_some hmacHex r sig hsig hne]
    constructor
    · intro hacc
      by_cases hsz : (hmacHex (sortedParamString r.params)).utf8ByteSize ≠ sig.utf8ByteSize
      · rw [if_pos hsz] at hacc
        cases hacc
      · rw [if_neg hsz] at hacc
        by_cases heq : hmacHex (sortedParamString r.params) = sig
        · exact heq
        · rw [if_neg heq] at hacc
          cases hacc
    · intro heq
      have hsz : ¬(hmacHex (sortedParamString r.params)).utf8ByteSize ≠ sig.utf8ByteSize := by
        rw [heq]
        exact fun hc => hc rfl
      rw [if_neg hsz, if_pos heq]
  refine ⟨hiff, ?_⟩
  intro r' hsig' hw hdiff hacc
  have heq : hmacHex (sortedParamString r.params) = sig := hiff.mp hacc
  rw [verify_some hmacHex r' sig hsig' hne]
  have hsz : ¬(hmacHex (sortedParamString r'.params)).utf8ByteSize ≠ sig.utf8ByteSize := by
    rw [← heq]
    intro hc
    exact hc (hw _ _)
  rw [if_neg hsz, if_neg (heq ▸ hdiff)]

/-- Witness for C1: the concretely signed sample request is accepted, and mutating
one character of its `shop` parameter value (keeping the signature) is rejected
with 401. -/
theorem c1_verify_accepts_iff_hmac_matches_witness :
    verifyAppProxy hexStub reqC1 = .accepted ∧
    verifyAppProxy hexStub reqC1m = .unauthorizedInvalid := by
  have h := c1_verify_accepts_iff_hmac_matches hexStub reqC1 sigC1 rfl (by decide)
  have hacc : verifyAppProxy hexStub reqC1 = .accepted := h.1.mpr rfl
  exact ⟨hacc,
    h.2 reqC1m rfl (fun s t => by rw [hexStub_utf8ByteSize, hexStub_utf8ByteSize])
      (by decide) hacc⟩

/-- C6 (code bug): on a received `signature` whose byte length differs from the
recomputed hex digest's, `crypto.timingSafeEqual` throws — the exception escapes
the middleware (there is no try/catch around it), so the verifier crashes instead
of rejecting with 401 Unauthorized as the specification requires. -/
theorem c6_length_mismatch_crashes :
    verifyAppProxy hexStub ⟨[("shop", .str "x.myshopify.com")], some "abc"⟩ =
      .crashed := by decide

/-- A transient outcome is a throw. -/
theorem transient_error (o : RemoteOutcome) (h : Draft1.isTransient o = true) :
    ∃ e, attemptExcept o = .error e := by
  cases o with
  | ok d => cases h
  | httpError s => exact ⟨.httpFailed s, rfl⟩
  | gqlErrors => cases h
  | transport => exact ⟨.transportFailed, rfl⟩

/-- C3: when a page request fails transiently, the draft fetcher retries the very
same page request, capped at 3 total attempts with linearly increasing sleeps of
`1000 * attempt` ms between attempts; two transient failures followed by a success
yield the page after exactly 3 attempts, and three consecutive transient failures
surface the final error (the `RetriesExhausted` of the specification) after exactly
3 attempts, issuing no further request and returning no partial result. -/
theorem c3_transient_retry_cap
    (oracle : Nat → RemoteOutcome) (first : Nat) (after : Option String)
    (h0 : Draft1.isTransient (oracle 0) = true)
    (h1 : Draft1.isTransient (oracle 1) = true) :
    (∀ d : GraphQLData, oracle 2 = .ok d →
      Draft1.fetchAllCOAs oracle first after =
        ([⟨first, after⟩, ⟨first, after⟩, ⟨first, after⟩], [1000 * 1, 1000 * 2],
          some (.ok (Draft1.pageResult d)))) ∧
    (∀ e : FetchErr, attemptExcept (oracle 2) = .error e →
      Draft1.fetchAllCOAs oracle first after =
        ([⟨first, after⟩, ⟨first, after⟩, ⟨first, after⟩], [1000 * 1, 1000 * 2],
          some (.error e))) := by
  obtain ⟨e0, he0⟩ := transient_error _ h0
  obtain ⟨e1, he1⟩ := transient_error _ h1
  constructor
  · intro d hd
    have h2 : attemptExcept (oracle 2) = .ok d := by rw [hd]; rfl
    simp [Draft1.fetchAllCOAs, Draft1.retryLoop, he0, he1, h2]
  · intro e he
    simp [Draft1.fetchAllCOAs, Draft1.retryLoop, he0, he1, he]

/-- The simulated remote of the C3 witness: HTTP 500 then a transport failure,
then a one-record page. -/
def oracleC3 : Nat → RemoteOutcome := fun n =>
  if n = 0 then .httpError 500
  else if n = 1 then .transport
  else .ok ⟨some ⟨[⟨⟨"n1", some "2024-05-01", some "Gummies", none, none, none⟩, "c1"⟩],
    ⟨false, none⟩⟩⟩

/-- A simulated remote that rate-limits every attempt. -/
def oracleC3b : Nat → RemoteOutcome := fun _ => .httpError 429

/-- Witness for C3: both behaviors at concrete remotes — success on the third
attempt, and exhaustion after three failing attempts. -/
theorem c3_transient_retry_cap_witness :
    Draft1.fetchAllCOAs oracleC3 50 none =
      ([⟨50, none⟩, ⟨50, none⟩, ⟨50, none⟩], [1000 * 1, 1000 * 2],
        some (.ok (Draft1.pageResult ⟨some ⟨[⟨⟨"n1", some "2024-05-01",
          some "Gummies", none, none, none⟩, "c1"⟩], ⟨false, none⟩⟩⟩))) ∧
    Draft1.fetchAllCOAs oracleC3b 50 none =
      ([⟨50, none⟩, ⟨50, none⟩, ⟨50, none⟩], [1000 * 1, 1000 * 2],
        some (.error (.httpFailed 429))) :=
  ⟨(c3_transient_retry_cap oracleC3 50 none (by decide) (by decide)).1 _ rfl,
   (c3_transient_retry_cap oracleC3b 50 none (by decide) (by decide)).2
     (.httpFailed 429) rfl⟩

/-- C4 (code bug): the catch block of the draft fetcher also catches the throw for
a structured GraphQL error payload, so such a page IS retried: with the remote
returning an errors payload on every attempt, the fetcher issues 3 attempts and
two sleeps before surfacing the error, where the specification requires the first
structured error to be immediately fatal with no further attempt.  (The walking
fetcher of src/server.js has no retry loop at all, so there a structured error
aborts at once — but the only fetcher with retry behavior retries it.) -/
theorem c4_structured_errors_are_retried :
    Draft1.fetchAllCOAs (fun _ => .gqlErrors) 50 none =
      ([⟨50, none⟩, ⟨50, none⟩, ⟨50, none⟩], [1000, 2000],
        some (.error .gqlFailed)) := by decide

/-- The walk over an N-page catalog: the loop issues exactly the chained requests
and accumulates, in page order, the kept records of every page. -/
theorem fetchLoop_walk (api : Option String → RemoteOutcome) :
    ∀ (after : Option String) (ms : List Metaobjects), Walk api after ms →
    ∀ fuel, ms.length ≤ fuel →
    fetchLoop api fuel after =
      some (walkRequests after ms,
        .ok ((ms.map (fun m => keptCOAs m.edges)).flatten)) := by
  intro after ms hw
  induction hw with
  | @last after m hapi hlast =>
    intro fuel hf
    cases fuel with
    | zero => exact absurd hf (by simp)
    | succ f =>
      have h1 : attemptExcept (api after) = .ok ⟨some m⟩ := by rw [hapi]; rfl
      have h2 : contAfter ⟨some m⟩ = none := by
        simp [contAfter, nextAfter, hlast]
      simp [fetchLoop, h1, h2, edgesOf, walkRequests]
  | @step after m c ms hapi hnext hcur hne hw ih =>
    intro fuel hf
    cases fuel with
    | zero => exact absurd hf (by simp)
    | succ f =>
      have h1 : attemptExcept (api after) = .ok ⟨some m⟩ := by rw [hapi]; rfl
      have hce : c.isEmpty = false := by
        cases hc : c.isEmpty
        · rfl
        · exact absurd (String.isEmpty_iff c |>.mp hc) hne
      have h2 : contAfter ⟨some m⟩ = some c := by
        simp [contAfter, nextAfter, hnext, hcur, hce]
      have hfl : ms.length ≤ f := by
        simpa using Nat.succ_le_succ_iff.mp (by simpa using hf)
      have h3 := ih f hfl
      simp [fetchLoop, h1, h2, h3, edgesOf, walkRequests, hcur, Except.map]

/-- The issued requests: the first carries no cursor, and request `i + 1` carries
the continuation cursor returned by page `i`. -/
theorem walkRequests_chain (api : Option String → RemoteOutcome) :
    ∀ (after : Option String) (ms : List Metaobjects), Walk api after ms →
    walkRequests after ms =
      mkRequest after ::
        (ms.dropLast.map (fun m => mkRequest m.pageInfo.endCursor)) := by
  intro after ms hw
  induction hw with
  | @last after m hapi hlast => simp [walkRequests]
  | @step after m c ms hapi hnext hcur hne hw ih =>
    have hne' : ms ≠ [] := by
      cases hw <;> simp
    rw [walkRequests, List.dropLast_cons_of_ne_nil hne', List.map_cons, hcur, ih]

/-- Along a walk, every page but the last returns a (truthy) continuation cursor. -/
theorem walk_dropLast_cursor (api : Option String → RemoteOutcome) :
    ∀ (after : Option String) (ms : List Metaobjects), Walk api after ms →
    ∀ m ∈ ms.dropLast, ∃ c, m.pageInfo.endCursor = some c := by
  intro after ms hw
  induction hw with
  | @last after m hapi hlast => simp
  | @step after m c ms hapi hnext hcur hne hw ih =>
    have hne' : ms ≠ [] := by
      cases hw <;> simp
    rw [List.dropLast_cons_of_ne_nil hne']
    intro x hx
    rcases List.mem_cons.mp hx with h | h
    · exact ⟨c, h ▸ hcur⟩
    · exact ih x h

/-- One request per walked page. -/
theorem walkRequests_length : ∀ (after : Option String) (ms : List Metaobjects),
    (walkRequests after ms).length = ms.length
  | _, [] => rfl
  | after, m :: ms => by
    simp [walkRequests, walkRequests_length m.pageInfo.endCursor ms]

/-- Every issued request asks for up to 50 items. -/
theorem walkRequests_first : ∀ (after : Option String) (ms : List Metaobjects),
    ∀ r ∈ walkRequests after ms, r.first = 50
  | _, [], _, hr => absurd hr (List.not_mem_nil _)
  | after, m :: ms, r, hr => by
    rcases List.mem_cons.mp hr with h | h
    · rw [h]; rfl
    · exact walkRequests_first m.pageInfo.endCursor ms r h

/-- `mkRequest` is injective in the cursor. -/
theorem mkRequest_injective : Function.Injective mkRequest := by
  intro a b h
  simpa [mkRequest] using h

/-- C2: walking an N-page remote catalog (N ≥ 1, pages chained by distinct truthy
cursors), `fetchAllCOAs` issues exactly N page requests — each asking for up to 50
items, the first with no cursor and each later one with the cursor returned by the
previous page, none reused — stops exactly when a response reports no next page,
and returns (as a permutation produced by the final date re-sort) the union of the
kept records of all N pages. -/
theorem c2_pagination_walk
    (api : Option String → RemoteOutcome) (ms : List Metaobjects) (fuel : Nat)
    (hw : Walk api none ms) (hfuel : ms.length ≤ fuel)
    (hdist : (ms.dropLast.map (fun m => m.pageInfo.endCursor)).Nodup) :
    fetchAllCOAs api fuel =
      some (walkRequests none ms,
        .ok (sortCOAs ((ms.map (fun m => keptCOAs m.edges)).flatten))) ∧
    List.Perm (sortCOAs ((ms.map (fun m => keptCOAs m.edges)).flatten))
      ((ms.map (fun m => keptCOAs m.edges)).flatten) ∧
    (walkRequests none ms).length = ms.length ∧
    (∀ r ∈ walkRequests none ms, r.first = 50) ∧
    walkRequests none ms =
      mkRequest none ::
        (ms.dropLast.map (fun m => mkRequest m.pageInfo.endCursor)) ∧
    (walkRequests none ms).Nodup := by
  have hloop := fetchLoop_walk api none ms hw fuel hfuel
  have hchain := walkRequests_chain api none ms hw
  refine ⟨?_, ?_, walkRequests_length none ms, walkRequests_first none ms, hchain, ?_⟩
  · rw [fetchAllCOAs, hloop]
    rfl
  · exact List.perm_insertionSort coaLe _
  · rw [hchain]
    refine List.nodup_cons.mpr ⟨?_, ?_⟩
    · intro hmem
      rcases List.mem_map.mp hmem with ⟨m, hm, hreq⟩
      obtain ⟨c, hc⟩ := walk_dropLast_cursor api none ms hw m hm
      have : m.pageInfo.endCursor = none := mkRequest_injective hreq
      rw [hc] at this
      cases this
    · have : ms.dropLast.map (fun m => mkRequest m.pageInfo.endCursor) =
          (ms.dropLast.map (fun m => m.pageInfo.endCursor)).map mkRequest := by
        rw [List.map_map]
        rfl
      rw [this]
      exact hdist.map mkRequest_injective

/-- First page of the C2 witness catalog: one kept record and one dropped
(date-less) record, with a continuation cursor. -/
def pageA : Metaobjects :=
  ⟨[⟨⟨"n1", some "2024-05-01", some "Gummies", none, none, none⟩, "cA"⟩,
    ⟨⟨"n2", none, some "Oil", none, none, none⟩, "cB"⟩],
   ⟨true, some "CUR1"⟩⟩

/-- Last page of the C2 witness catalog. -/
def pageB : Metaobjects :=
  ⟨[⟨⟨"n3", some "2024-06-01", some "Caps", none, none, none⟩, "cC"⟩],
   ⟨false, none⟩⟩

/-- The simulated two-page remote of the C2 witness. -/
def apiC2 : Option String → RemoteOutcome := fun a =>
  match a with
  | none => .ok ⟨some pageA⟩
  | some c => if c = "CUR1" then .ok ⟨some pageB⟩ else .transport

/-- The two-page catalog is a walk. -/
theorem walkC2 : Walk apiC2 none [pageA, pageB] :=
  .step rfl rfl rfl (by decide) (.last rfl rfl)

/-- Witness for C2: on the concrete two-page remote, the walk issues exactly the
two chained requests and returns the kept records of both pages, date-descending. -/
theorem c2_pagination_walk_witness :
    fetchAllCOAs apiC2 2 =
      some ([⟨50, none⟩, ⟨50, some "CUR1"⟩],
        .ok [⟨"n3", some "2024-06-01", some "Caps", none, none, none⟩,
             ⟨"n1", some "2024-05-01", some "Gummies", none, none, none⟩]) :=
  ((c2_pagination_walk apiC2 [pageA, pageB] 2 walkC2 (by decide) (by decide)).1).trans
    (by decide)

/-- A raw node occurring (kept) on both pages of the C10 witness catalog. -/
def dupNode : RawNode := ⟨"dup", some "2024-05-01", some "Gummies", none, none, none⟩

/-- First page of the C10 witness catalog. -/
def pageD1 : Metaobjects := ⟨[⟨dupNode, "c1"⟩], ⟨true, some "D"⟩⟩

/-- Last page of the C10 witness catalog, repeating the same node. -/
def pageD2 : Metaobjects := ⟨[⟨dupNode, "c2"⟩], ⟨false, none⟩⟩

/-- The simulated two-page remote of the C10 witness. -/
def apiC10 : Option String → RemoteOutcome := fun a =>
  match a with
  | none => .ok ⟨some pageD1⟩
  | some c => if c = "D" then .ok ⟨some pageD2⟩ else .transport

/-- The duplicated catalog is a walk. -/
theorem walkC10 : Walk apiC10 none [pageD1, pageD2] :=
  .step rfl rfl rfl (by decide) (.last rfl rfl)

/-- C10: `fetchAllCOAs` performs no de-duplication — before the final sort the
accumulated sequence is exactly the concatenation, in page order and within-page
edge order, of every kept node; the returned (sorted) sequence preserves length and
per-record multiplicity, so a record returned on two pages appears twice and the
result length is the total count of kept nodes; and a catalog whose nodes are all
filtered out yields an empty array, not an error. -/
theorem c10_no_dedup
    (api : Option String → RemoteOutcome) (ms : List Metaobjects) (fuel : Nat)
    (hw : Walk api none ms) (hfuel : ms.length ≤ fuel) :
    fetchLoop api fuel none =
      some (walkRequests none ms,
        .ok ((ms.map (fun m => keptCOAs m.edges)).flatten)) ∧
    (sortCOAs ((ms.map (fun m => keptCOAs m.edges)).flatten)).length =
      ((ms.map (fun m => keptCOAs m.edges)).flatten).length ∧
    (∀ c : COA, (sortCOAs ((ms.map (fun m => keptCOAs m.edges)).flatten)).count c =
      ((ms.map (fun m => keptCOAs m.edges)).flatten).count c) ∧
    ((ms.map (fun m => keptCOAs m.edges)).flatten).length =
      (ms.map (fun m => (keptCOAs m.edges).length)).sum ∧
    (((ms.map (fun m => keptCOAs m.edges)).flatten) = [] →
      fetchAllCOAs api fuel = some (walkRequests none ms, .ok [])) := by
  have hloop := fetchLoop_walk api none ms hw fuel hfuel
  have hperm : List.Perm (sortCOAs ((ms.map (fun m => keptCOAs m.edges)).flatten))
      ((ms.map (fun m => keptCOAs m.edges)).flatten) :=
    List.perm_insertionSort coaLe _
  refine ⟨hloop, hperm.length_eq, fun c => hperm.count_eq c, ?_, ?_⟩
  · rw [List.length_flatten, List.map_map]
    rfl
  · intro hnil
    rw [fetchAllCOAs, hloop, hnil]
    rfl

/-- Witness for C10: the concrete remote returning the same node on two pages
yields that record twice, in page order. -/
theorem c10_no_dedup_witness :
    fetchLoop apiC10 2 none =
      some ([⟨50, none⟩, ⟨50, some "D"⟩], .ok [toCOA dupNode, toCOA dupNode]) :=
  ((c10_no_dedup apiC10 [pageD1, pageD2] 2 walkC10 (by decide)).1).trans (by decide)

/-- The spec's date-key order is transitive. -/
theorem specDateKeyLe_trans : ∀ x y z : Option Int,
    specDateKeyLe x y → specDateKeyLe y z → specDateKeyLe x z
  | none, _, _, _, _ => trivial
  | some _, none, _, h, _ => absurd h (fun hc => hc)
  | some _, some _, none, _, h => absurd h (fun hc => hc)
  | some _, some _, some _, h1, h2 => le_trans h1 h2

/-- On records with parsed dates, the code's comparator order agrees with the
spec's descending date order. -/
theorem coaLe_iff_dateGe (x y : COA)
    (hx : (dateVal x).isSome = true) (hy : (dateVal y).isSome = true) :
    coaLe x y ↔ dateGe x y := by
  obtain ⟨tx, hxx⟩ := Option.isSome_iff_exists.mp hx
  obtain ⟨ty, hyy⟩ := Option.isSome_iff_exists.mp hy
  rw [coaLe, dateGe, sortCompare, hxx, hyy]
  show ty - tx ≤ 0 ↔ specDateKeyLe (some ty) (some tx)
  constructor
  · intro h
    show ty ≤ tx
    omega
  · intro h
    have : ty ≤ tx := h
    omega

/-- Inserting a parsed-date record into a date-descending list of parsed-date
records with the code's comparator keeps it date-descending. -/
theorem orderedInsert_dateGe (a : COA) :
    ∀ l : List COA, (dateVal a).isSome = true →
    (∀ c ∈ l, (dateVal c).isSome = true) → l.Pairwise dateGe →
    (l.orderedInsert coaLe a).Pairwise dateGe
  | [], _, _, _ => by simp
  | b :: t, ha, hl, hs => by
    rw [List.orderedInsert]
    have hb : (dateVal b).isSome = true := hl b (List.mem_cons_self b t)
    have hhead := (List.pairwise_cons.mp hs).1
    have htail := (List.pairwise_cons.mp hs).2
    by_cases hab : coaLe a b
    · rw [if_pos hab]
      have hge : dateGe a b := (coaLe_iff_dateGe a b ha hb).mp hab
      refine List.pairwise_cons.mpr ⟨?_, hs⟩
      intro y hy
      rcases List.mem_cons.mp hy with h | h
      · rw [h]; exact hge
      · exact specDateKeyLe_trans _ _ _ (hhead y h) hge
    · rw [if_neg hab]
      have hba : dateGe b a := by
        rw [dateGe]
        obtain ⟨ta, haa⟩ := Option.isSome_iff_exists.mp ha
        obtain ⟨tb, hbb⟩ := Option.isSome_iff_exists.mp hb
        rw [haa, hbb]
        show ta ≤ tb
        rw [coaLe, sortCompare, hbb, haa] at hab
        have hab2 : ¬ (tb - ta ≤ 0) := hab
        omega
      refine List.pairwise_cons.mpr ⟨?_, ?_⟩
      · intro y hy
        rcases (List.mem_orderedInsert coaLe).mp hy with h | h
        · rw [h]; exact hba
        · exact hhead y h
      · exact orderedInsert_dateGe a t ha (fun c hc => hl c (List.mem_cons_of_mem b hc)) htail

/-- The code's sort of a list of parsed-date records is date-descending. -/
theorem sortCOAs_dateGe (l : List COA) (hall : ∀ c ∈ l, (dateVal c).isSome = true) :
    (sortCOAs l).Pairwise dateGe := by
  induction l with
  | nil => simp [sortCOAs]
  | cons a t ih =>
    rw [sortCOAs, List.insertionSort]
    refine orderedInsert_dateGe a _ (hall a (List.mem_cons_self a t)) ?_ ?_
    · intro c hc
      exact hall c (List.mem_cons_of_mem a ((List.mem_insertionSort coaLe).mp hc))
    · exact ih (fun c hc => hall c (List.mem_cons_of_mem a hc))

/-- C7 counterexample: on a catalog containing a record with an unparsable date
ahead of a dated record, `fetchAllCOAs` returns the pair unchanged — the
comparator yields `+0` for the NaN date (ECMAScript coerces a NaN comparator
result), so the stable sort leaves the unparsable-date record in front — and that
returned sequence is not sorted descending with unparsable dates as the lowest
key, contradicting the claim. -/
theorem c7_sort_counterexample :
    fetchAllCOAs apiC7 1 =
      some ([⟨50, none⟩], .ok [coaUnparsable, coa2020]) ∧
    ¬ specSortedDateDesc [coaUnparsable, coa2020] := by
  constructor
  · decide
  · decide

/-- C7 amended: the final re-sort is a stable sort under the comparator
`dateValue(b) − dateValue(a)` in which any comparison involving an unparsable
date yields `0` (ECMAScript coerces the NaN to `+0`) and therefore preserves
relative order, rather than treating unparsable dates as the lowest sort key;
when every record's date parses, the returned sequence is sorted by date
descending, re-applying the pass changes nothing (it is idempotent), and a
sequence already in the comparator's order is left unchanged. -/
theorem c7_sort_desc_idempotent
    (l : List COA) (hall : ∀ c ∈ l, (dateVal c).isSome = true) :
    specSortedDateDesc (sortCOAs l) ∧
    sortCOAs (sortCOAs l) = sortCOAs l ∧
    (l.Pairwise coaLe → sortCOAs l = l) ∧
    (∀ a b : COA, dateVal a = none ∨ dateVal b = none → sortCompare a b = 0) := by
  have hp : (sortCOAs l).Pairwise dateGe := sortCOAs_dateGe l hall
  refine ⟨hp, ?_, ?_, ?_⟩
  · have hmem : ∀ c ∈ sortCOAs l, (dateVal c).isSome = true := fun c hc =>
      hall c ((List.mem_insertionSort coaLe).mp hc)
    have hsorted : List.Sorted coaLe (sortCOAs l) := by
      refine List.Pairwise.imp_of_mem ?_ hp
      intro a b ha hb hge
      exact (coaLe_iff_dateGe a b (hmem a ha) (hmem b hb)).mpr hge
    exact List.Sorted.insertionSort_eq hsorted
  · intro hsorted
    exact List.Sorted.insertionSort_eq hsorted
  · intro a b h
    rcases h with h | h
    · rw [sortCompare, h]
      cases dateVal b <;> rfl
    · rw [sortCompare, h]

/-- Witness for C7 (amended): on a concrete all-parsed list the sort is
date-descending and idempotent. -/
theorem c7_sort_desc_idempotent_witness :
    specSortedDateDesc (sortCOAs [coa2020,
      ⟨"b3", some "2024-06-01", some "Caps", none, none, none⟩]) ∧
    sortCOAs (sortCOAs [coa2020,
        ⟨"b3", some "2024-06-01", some "Caps", none, none, none⟩]) =
      sortCOAs [coa2020, ⟨"b3", some "2024-06-01", some "Caps", none, none, none⟩] :=
  ⟨(c7_sort_desc_idempotent [coa2020,
      ⟨"b3", some "2024-06-01", some "Caps", none, none, none⟩] (by decide)).1,
   (c7_sort_desc_idempotent [coa2020,
      ⟨"b3", some "2024-06-01", some "Caps", none, none, none⟩] (by decide)).2.1⟩

/-- C8: when the token endpoint answers with HTTP success and an access-token
field, the OAuth callback persists the token in the credential store under the
shop domain — overwriting any prior value, since the theorem holds for every prior
store — and a subsequent credential-store read for that shop domain returns
exactly the exchanged token. -/
theorem c8_oauth_set_then_get
    (st : Store) (shop code tok : String)
    (hshop : shop ≠ "") (hcode : code ≠ "") (htok : tok ≠ "") :
    (authCallback st (some shop) (some code) (.okJson (some tok))).2 =
      .successPage shop ∧
    getTokenForShop
      (authCallback st (some shop) (some code) (.okJson (some tok))).1 shop =
      .ok tok := by
  have h1 : authCallback st (some shop) (some code) (.okJson (some tok)) =
      (kvSet st shop tok, .successPage shop) := by
    simp [authCallback, hshop, hcode, htok]
  rw [h1]
  refine ⟨rfl, ?_⟩
  have hget : kvGet (kvSet st shop tok) shop = some tok := by
    simp [kvGet, kvSet]
  rw [getTokenForShop, if_neg hshop, hget]
  simp [htok]

/-- Witness for C8: exchanging `tok123` for `x.example.com` over a store already
holding an old credential for that shop; the subsequent read returns `tok123`. -/
theorem c8_oauth_set_then_get_witness :
    getTokenForShop
      (authCallback [("x.example.com", "oldtok")] (some "x.example.com")
        (some "codeA") (.okJson (some "tok123"))).1 "x.example.com" =
      .ok "tok123" :=
  (c8_oauth_set_then_get [("x.example.com", "oldtok")] "x.example.com" "codeA"
    "tok123" (by decide) (by decide) (by decide)).2

/-- C9: an inbound data request on the signed proxy path never mutates the
credential store — the handler (signature verification, then the paginated fetch)
hands back the store it was given, so every tenant's stored credential is
unchanged after the request completes, whatever the verifier outcome and whatever
the remote does. -/
theorem c9_data_request_preserves_credentials
    (hmacHex : String → String) (api : Option String → RemoteOutcome)
    (fuel : Nat) (st : Store) (r : ProxyReq) :
    (handleCoas hmacHex api fuel st r).1 = st ∧
    (∀ tenant : String,
      kvGet (handleCoas hmacHex api fuel st r).1 tenant = kvGet st tenant) := by
  have h : (handleCoas hmacHex api fuel st r).1 = st := by
    unfold handleCoas
    cases verifyAppProxy hmacHex r with
    | accepted =>
      cases fetchAllCOAs api fuel with
      | none => rfl
      | some p =>
        rcases p with ⟨reqs, res⟩
        cases res <;> rfl
    | unauthorizedMissing => rfl
    | unauthorizedInvalid => rfl
    | crashed => rfl
  exact ⟨h, fun tenant => by rw [h]⟩

end MetaobjectPaginator



